import Mathlib

/-!
Verification of the Rancage-Engine memory-allocator core
(`src/Core/Memory/{ArenaAllocator,FrameAllocator,PoolAllocator,DebugAllocator}.h`).

All machine integers (`size_t`, `uintptr_t`, `uint32_t`) are modelled as `Nat`
with explicit reduction modulo `2 ^ 64` (resp. `2 ^ 32`) at every point where
the C++ code performs wrapping unsigned arithmetic.  Pointers are modelled as
numeric addresses; `0` stands for the null pointer.  Calls into the system
allocator (`malloc` / `realloc`) are modelled by explicit oracle arguments
carrying the address the system allocator returned (`none` / `0` for failure),
since their outcome is external to the translated code.
-/

/-- Modulus of `size_t` / `uintptr_t` arithmetic (64-bit target). -/
def UPTR : Nat := 2 ^ 64

/-- Modulus of `uint32_t` arithmetic. -/
def U32 : Nat := 2 ^ 32

/-- 64-bit bitwise complement `~x` of a `size_t` value. -/
def compl64 (x : Nat) : Nat := (UPTR - 1) - x % UPTR

/-- Wrapping 64-bit subtraction `x - y` on `size_t` / pointer values. -/
def sub64 (x y : Nat) : Nat := (UPTR + x - y % UPTR) % UPTR

/-- `(current + (alignment - 1)) & ~(alignment - 1)`, the alignment formula
used verbatim by `ArenaAllocator::Allocate`, `FrameAllocator::Allocate` and
`PoolAllocator::Align`, computed in 64-bit arithmetic. -/
def alignUp (current alignment : Nat) : Nat :=
  ((current + (alignment - 1)) % UPTR) &&& (compl64 (alignment - 1))

/-- Decidable test that an alignment value is a power of two representable
in a 64-bit word (the documented precondition of the allocators). -/
def pow2b (al : Nat) : Bool := (List.range 64).any fun k => al == 2 ^ k

theorem pow2b_spec {al : Nat} (h : pow2b al = true) : ∃ k, k < 64 ∧ al = 2 ^ k := by
  rcases List.any_eq_true.mp h with ⟨k, hk, hal⟩
  exact ⟨k, List.mem_range.mp hk, by simpa using hal⟩

theorem sub64_eq_sub {x y : Nat} (hyx : y ≤ x) (hx : x < UPTR) : sub64 x y = x - y := by
  have hy : y < UPTR := lt_of_le_of_lt hyx hx
  unfold sub64
  rw [Nat.mod_eq_of_lt hy]
  have h1 : UPTR + x - y = UPTR + (x - y) := by omega
  rw [h1, Nat.add_mod_left, Nat.mod_eq_of_lt (by omega)]

theorem sub64_self (x : Nat) : sub64 x x = 0 := by
  unfold sub64
  have hx : x % UPTR ≤ x := Nat.mod_le _ _
  have h1 : UPTR + x - x % UPTR = UPTR + (x - x % UPTR) := by omega
  rw [h1, Nat.add_mod_left]
  have h2 : x - x % UPTR = UPTR * (x / UPTR) := by
    have := Nat.div_add_mod x UPTR
    omega
  rw [h2, Nat.mul_mod_right]

/-- Clearing the low `k` bits of a 64-bit word rounds down to a multiple
of `2 ^ k`. -/
theorem land_low_clear {y k : Nat} (hy : y < 2 ^ 64) (hk : k ≤ 64) :
    y &&& (2 ^ 64 - 2 ^ k) = y / 2 ^ k * 2 ^ k := by
  have hmask : 2 ^ 64 - 2 ^ k = (2 ^ (64 - k) - 1) <<< k := by
    have he : 64 - k + k = 64 := by omega
    rw [Nat.shiftLeft_eq, Nat.sub_mul, one_mul, ← Nat.pow_add, he]
  have hrhs : y / 2 ^ k * 2 ^ k = (y >>> k) <<< k := by
    rw [Nat.shiftRight_eq_div_pow, Nat.shiftLeft_eq]
  rw [hmask, hrhs]
  apply Nat.eq_of_testBit_eq
  intro i
  rw [Nat.testBit_land, Nat.testBit_shiftLeft, Nat.testBit_shiftLeft,
    Nat.testBit_two_pow_sub_one, Nat.testBit_shiftRight]
  by_cases hik : k ≤ i
  · have h1 : (decide (i ≥ k)) = true := by simp [ge_iff_le, hik]
    rw [h1]
    by_cases hi64 : i < 64
    · have h2 : (decide (i - k < 64 - k)) = true := by simp; omega
      rw [h2]
      simp [Nat.add_sub_cancel' hik]
    · have h2 : (decide (i - k < 64 - k)) = false := by simp; omega
      have h3 : y.testBit i = false := by
        apply Nat.testBit_lt_two_pow
        calc y < 2 ^ 64 := hy
          _ ≤ 2 ^ i := Nat.pow_le_pow_right (by omega) (by omega)
      have h4 : y.testBit (k + (i - k)) = false := by
        rwa [Nat.add_sub_cancel' hik]
      simp [h2, h4]
  · have h1 : (decide (i ≥ k)) = false := by simp [ge_iff_le, hik]
    simp [h1]

/-- Characterization of the source's alignment formula for power-of-two
alignments, in the absence of 64-bit overflow: it rounds `x` up to the
next multiple of the alignment. -/
theorem alignUp_eq {x k : Nat} (hk : k < 64) (hx : x + (2 ^ k - 1) < UPTR) :
    alignUp x (2 ^ k) = (x + (2 ^ k - 1)) / 2 ^ k * 2 ^ k := by
  have hklt : (1 : Nat) ≤ 2 ^ k := Nat.one_le_two_pow
  have hkU : 2 ^ k - 1 < UPTR := by
    have : 2 ^ k ≤ 2 ^ 64 := Nat.pow_le_pow_right (by omega) (by omega)
    unfold UPTR at *
    omega
  unfold alignUp compl64
  rw [Nat.mod_eq_of_lt hx, Nat.mod_eq_of_lt hkU]
  have hmask : UPTR - 1 - (2 ^ k - 1) = 2 ^ 64 - 2 ^ k := by
    unfold UPTR
    omega
  rw [hmask]
  exact land_low_clear hx (by omega)

/-- Basic bounds for the rounded-up address: it is at least `x`, at most
`x + alignment - 1`, and a multiple of the alignment. -/
theorem alignUp_spec {x k : Nat} (hk : k < 64) (hx : x + (2 ^ k - 1) < UPTR) :
    x ≤ alignUp x (2 ^ k) ∧ alignUp x (2 ^ k) ≤ x + (2 ^ k - 1) ∧
      2 ^ k ∣ alignUp x (2 ^ k) := by
  have h1 : (1 : Nat) ≤ 2 ^ k := Nat.one_le_two_pow
  rw [alignUp_eq hk hx]
  refine ⟨?_, ?_, dvd_mul_left _ _⟩
  · have hdm := Nat.div_add_mod (x + (2 ^ k - 1)) (2 ^ k)
    have hlt : (x + (2 ^ k - 1)) % 2 ^ k < 2 ^ k := Nat.mod_lt _ (by omega)
    have hcomm : (x + (2 ^ k - 1)) / 2 ^ k * 2 ^ k
        = 2 ^ k * ((x + (2 ^ k - 1)) / 2 ^ k) := Nat.mul_comm _ _
    omega
  · exact Nat.div_mul_le_self _ _

/-!
## ArenaAllocator (`src/Core/Memory/ArenaAllocator.h`)

State of the bump-pointer arena.  `head` / `tail` are the numeric values of
the `uint8_t*` members, `mem` gives the byte stored at each address (the
allocator itself never writes bytes; only `realloc`, modelled inside `Grow`,
moves them).
-/

structure ArenaAllocator where
  head : Nat
  tail : Nat
  capacity : Nat
  owned : Bool
  mem : Nat → Nat

/-- `Size()`: `static_cast<size_t>(_tail - _head)` (pointer subtraction). -/
def ArenaAllocator.Size (a : ArenaAllocator) : Nat := sub64 a.tail a.head

/-- `Capacity()`. -/
def ArenaAllocator.Capacity (a : ArenaAllocator) : Nat := a.capacity

/-- `Reset()`: rewinds `_tail` to `_head`. -/
def ArenaAllocator.Reset (a : ArenaAllocator) : ArenaAllocator := { a with tail := a.head }

/-- `Grow(add)`.  `reallocResult` is the address returned by
`std::realloc(_buffer(), newCap)` (`none` = realloc failed); on success the
used prefix of the buffer is preserved at the same offsets from the new
base address, which is realloc's documented behaviour. -/
def ArenaAllocator.Grow (a : ArenaAllocator) (add : Nat) (reallocResult : Option Nat) :
    Option ArenaAllocator :=
  if a.owned = false then none
  else
    let used := a.Size
    let newCap := (a.capacity + add) % UPTR
    match reallocResult with
    | none => none
    | some newBuf =>
        some { head := newBuf,
               tail := (newBuf + used) % UPTR,
               capacity := newCap,
               owned := a.owned,
               mem := fun i =>
                 if newBuf ≤ i ∧ i < newBuf + used then a.mem (a.head + (i - newBuf))
                 else 0 }

/-- `Allocate(size, alignment)`.  Returns the produced pointer (`none` for
`nullptr`) together with the state after the call.  `reallocResult` is the
oracle for the `std::realloc` call inside `Grow`, used only when the
capacity check fails. -/
def ArenaAllocator.Allocate (a : ArenaAllocator) (size alignment : Nat)
    (reallocResult : Option Nat) : Option Nat × ArenaAllocator :=
  let current := a.tail
  let aligned := alignUp current alignment
  let padding := sub64 aligned current
  if (a.Size + padding + size) % UPTR > a.capacity then
    match a.Grow (max ((a.capacity * 2) % UPTR) ((padding + size) % UPTR)) reallocResult with
    | none => (none, a)
    | some a2 =>
        let aligned2 := alignUp a2.tail alignment
        (some aligned2, { a2 with tail := (aligned2 + size) % UPTR })
  else
    (some aligned, { a with tail := (aligned + size) % UPTR })

/-- Well-formedness of an arena state: the bump pointer lies inside the
buffer and the buffer fits in the 64-bit address space. -/
def ArenaAllocator.WF (a : ArenaAllocator) : Prop :=
  a.head ≤ a.tail ∧ a.tail ≤ a.head + a.capacity ∧ a.head + a.capacity < UPTR

instance (a : ArenaAllocator) : Decidable a.WF := by
  unfold ArenaAllocator.WF
  infer_instance

/-- A sequence of `Allocate` calls (each entry is `(size, alignment)`;
the realloc oracle is irrelevant on the non-growing paths considered, so
it is fixed to `none`).  Returns the list of returned pointers and the
final state. -/
def runAllocs (a : ArenaAllocator) : List (Nat × Nat) → List (Option Nat) × ArenaAllocator
  | [] => ([], a)
  | (size, al) :: rest =>
      let r := a.Allocate size al none
      let rec' := runAllocs r.2 rest
      (r.1 :: rec'.1, rec'.2)

/-- The padding byte counts inserted by each call of the sequence. -/
def runPaddings (a : ArenaAllocator) : List (Nat × Nat) → List Nat
  | [] => []
  | (size, al) :: rest =>
      sub64 (alignUp a.tail al) a.tail :: runPaddings ((a.Allocate size al none).2) rest

/-- Decidable statement that every call of the sequence has a power-of-two
alignment, performs no overflowing address arithmetic, and (together with
its padding) fits within the arena's current capacity, so that no growth
occurs. -/
def fitsRun (a : ArenaAllocator) : List (Nat × Nat) → Bool
  | [] => true
  | (size, al) :: rest =>
      (pow2b al && decide (a.tail + (al - 1) < UPTR)
          && decide (a.Size + sub64 (alignUp a.tail al) a.tail + size ≤ a.capacity))
        && fitsRun ((a.Allocate size al none).2) rest

/-- On the non-growing path (padded request fits in the capacity) `Allocate`
returns the aligned bump pointer and advances `tail` past the request. -/
theorem ArenaAllocator.Allocate_nogrow (a : ArenaAllocator) (size al : Nat) (r : Option Nat)
    (h : (a.Size + sub64 (alignUp a.tail al) a.tail + size) % UPTR ≤ a.capacity) :
    a.Allocate size al r =
      (some (alignUp a.tail al), { a with tail := (alignUp a.tail al + size) % UPTR }) := by
  unfold ArenaAllocator.Allocate
  simp only []
  rw [if_neg (by omega)]

/-- Single-call specification under well-formedness: a fitting request with a
power-of-two alignment succeeds without growth, the address is aligned, lies
at or after the old `tail`, and the new `tail` is `address + size`. -/
theorem ArenaAllocator.Allocate_step (a : ArenaAllocator) (size k : Nat) (r : Option Nat)
    (hk : k < 64) (hwf : a.WF)
    (hov : a.tail + (2 ^ k - 1) < UPTR)
    (hfit : a.Size + sub64 (alignUp a.tail (2 ^ k)) a.tail + size ≤ a.capacity) :
    a.Allocate size (2 ^ k) r = (some (alignUp a.tail (2 ^ k)),
        { a with tail := alignUp a.tail (2 ^ k) + size }) ∧
      a.tail ≤ alignUp a.tail (2 ^ k) ∧
      alignUp a.tail (2 ^ k) ≤ a.tail + (2 ^ k - 1) ∧
      2 ^ k ∣ alignUp a.tail (2 ^ k) ∧
      alignUp a.tail (2 ^ k) + size ≤ a.head + a.capacity := by
  obtain ⟨hwf1, hwf2, hwf3⟩ := hwf
  obtain ⟨hge, hle, hdvd⟩ := alignUp_spec hk hov
  set p := alignUp a.tail (2 ^ k) with hp
  have htailU : a.tail < UPTR := by omega
  have hpU : p < UPTR := by omega
  have hSize : a.Size = a.tail - a.head := sub64_eq_sub hwf1 htailU
  have hpad : sub64 p a.tail = p - a.tail := sub64_eq_sub hge hpU
  have hfit' : (a.tail - a.head) + (p - a.tail) + size ≤ a.capacity := by
    rw [hSize, hpad] at hfit
    exact hfit
  have hbound : p + size ≤ a.head + a.capacity := by omega
  have hsum : a.Size + sub64 p a.tail + size < UPTR := by
    rw [hSize, hpad]
    omega
  have hmod : (a.Size + sub64 p a.tail + size) % UPTR ≤ a.capacity := by
    rw [Nat.mod_eq_of_lt hsum, hSize, hpad]
    omega
  have heq := a.Allocate_nogrow size (2 ^ k) r hmod
  rw [Nat.mod_eq_of_lt (by omega : p + size < UPTR)] at heq
  exact ⟨heq, hge, hle, hdvd, hbound⟩

/-- Master specification of a fitting run of `Allocate` calls: every call
succeeds, addresses are aligned, at or after the starting `tail`, pairwise
ordered with disjoint ranges, `tail` advances by the total of sizes and
paddings, and `head` / `capacity` are untouched. -/
theorem runAllocs_fits (calls : List (Nat × Nat)) :
    ∀ a : ArenaAllocator, a.WF → fitsRun a calls = true →
    ∃ addrs : List Nat,
      (runAllocs a calls).1 = addrs.map some ∧
      addrs.length = calls.length ∧
      (∀ q ∈ addrs, a.tail ≤ q) ∧
      (∀ pr ∈ addrs.zip calls, pr.2.2 ∣ pr.1) ∧
      List.Pairwise (fun x y => x.1 + x.2 ≤ y.1) (addrs.zip (calls.map Prod.fst)) ∧
      (runAllocs a calls).2.tail
        = a.tail + ((calls.map Prod.fst).sum + (runPaddings a calls).sum) ∧
      (runAllocs a calls).2.head = a.head ∧
      (runAllocs a calls).2.capacity = a.capacity ∧
      (runAllocs a calls).2.WF := by
  induction calls with
  | nil =>
      intro a hwf _
      exact ⟨[], rfl, rfl, by simp, by simp, by simp [List.Pairwise.nil],
        by simp [runAllocs, runPaddings], rfl, rfl, hwf⟩
  | cons c rest ih =>
      obtain ⟨size, al⟩ := c
      intro a hwf hfits
      rw [fitsRun, Bool.and_eq_true, Bool.and_eq_true, Bool.and_eq_true,
        decide_eq_true_eq, decide_eq_true_eq] at hfits
      obtain ⟨⟨⟨hp2, hov⟩, hfit⟩, hrest⟩ := hfits
      obtain ⟨k, hk, rfl⟩ := pow2b_spec hp2
      obtain ⟨heq, hge, hle, hdvd, hbound⟩ :=
        a.Allocate_step size k none hk hwf hov hfit
      set p := alignUp a.tail (2 ^ k) with hp
      set a1 : ArenaAllocator := { a with tail := p + size } with ha1
      have hwf1 : a1.WF := by
        obtain ⟨h1, h2, h3⟩ := hwf
        exact ⟨by simp [ha1]; omega, by simp [ha1]; omega, by simp [ha1]; omega⟩
      have hrest' : fitsRun a1 rest = true := by
        rw [heq] at hrest
        exact hrest
      obtain ⟨addrs, ih1, ih2, ih3, ih4, ih5, ih6, ih7, ih8, ih9⟩ := ih a1 hwf1 hrest'
      have ht : a1.tail = p + size := rfl
      refine ⟨p :: addrs, ?_, ?_, ?_, ?_, ?_, ?_, ?_, ?_, ?_⟩
      · simp only [runAllocs, heq, List.map_cons]
        rw [ih1]
      · simp [ih2]
      · intro q hq
        rcases List.mem_cons.mp hq with h | h
        · omega
        · have h3 := ih3 q h
          rw [ht] at h3
          omega
      · intro pr hpr
        rcases List.mem_cons.mp (by simpa using hpr) with h | h
        · rw [h]
          exact hdvd
        · exact ih4 pr h
      · simp only [List.map_cons, List.zip_cons_cons]
        refine List.Pairwise.cons ?_ ih5
        intro y hy
        obtain ⟨y1, y2⟩ := y
        have hy1 : y1 ∈ addrs := (List.of_mem_zip hy).1
        have h3 := ih3 y1 hy1
        rw [ht] at h3
        exact h3
      · simp only [runAllocs, heq, runPaddings, List.map_cons, List.sum_cons]
        rw [← hp]
        have hpadval : sub64 p a.tail = p - a.tail := by
          obtain ⟨h1, h2, h3⟩ := hwf
          exact sub64_eq_sub hge (by omega)
        rw [ih6, ht, hpadval]
        omega
      · simp only [runAllocs, heq]
        rw [ih7]
      · simp only [runAllocs, heq]
        rw [ih8]
      · simp only [runAllocs, heq]
        exact ih9

/-!
### Arena operation sequences (for the invariance claims)
-/

inductive ArenaOp where
  | alloc (size alignment : Nat) (reallocResult : Option Nat)
  | reset

/-- One public mutating call on the arena. -/
def ArenaAllocator.applyOp (a : ArenaAllocator) : ArenaOp → ArenaAllocator
  | ArenaOp.alloc size al r => (a.Allocate size al r).2
  | ArenaOp.reset => a.Reset

/-- A sequence of public mutating calls. -/
def ArenaAllocator.applyOps (a : ArenaAllocator) : List ArenaOp → ArenaAllocator
  | [] => a
  | op :: rest => (a.applyOp op).applyOps rest

/-- Decidable statement that no `Allocate` call of the sequence enters the
growth branch (its padded request passes the capacity check). -/
def noGrowthRun (a : ArenaAllocator) : List ArenaOp → Bool
  | [] => true
  | ArenaOp.reset :: rest => noGrowthRun a.Reset rest
  | ArenaOp.alloc size al r :: rest =>
      decide ((a.Size + sub64 (alignUp a.tail al) a.tail + size) % UPTR ≤ a.capacity)
        && noGrowthRun (a.Allocate size al r).2 rest

/-!
## FrameAllocator (`src/Core/Memory/FrameAllocator.h`)

`buffer0` / `buffer1` are the numeric base addresses returned by the two
constructor `malloc` calls; `offset0` / `offset1` model the `uint32_t
_offsets[2]` counters and `current` the active index `_current`.
-/

structure FrameAllocator where
  buffer0 : Nat
  buffer1 : Nat
  offset0 : Nat
  offset1 : Nat
  current : Nat
  bufferSize : Nat

/-- `_buffers[_current]`. -/
def FrameAllocator.curBuffer (f : FrameAllocator) : Nat :=
  if f.current = 0 then f.buffer0 else f.buffer1

/-- `_offsets[_current]`. -/
def FrameAllocator.curOffset (f : FrameAllocator) : Nat :=
  if f.current = 0 then f.offset0 else f.offset1

/-- Assignment to `_offsets[_current]`. -/
def FrameAllocator.setCurOffset (f : FrameAllocator) (v : Nat) : FrameAllocator :=
  if f.current = 0 then { f with offset0 := v } else { f with offset1 := v }

/-- `BeginFrame()`: swaps the active buffer and resets its offset. -/
def FrameAllocator.BeginFrame (f : FrameAllocator) : FrameAllocator :=
  FrameAllocator.setCurOffset { f with current := 1 - f.current } 0

/-- `Allocate(size, alignment)`: aligned bump allocation from the active
buffer; on success the `uint32_t` offset is advanced by
`static_cast<uint32_t>(pad + size)` (wrapping 32-bit addition). -/
def FrameAllocator.Allocate (f : FrameAllocator) (size alignment : Nat) :
    Option Nat × FrameAllocator :=
  let base := f.curBuffer
  let ptr := (base + f.curOffset) % UPTR
  let aligned := alignUp ptr alignment
  let pad := sub64 aligned ptr
  if (f.curOffset + pad + size) % UPTR > f.bufferSize then
    (none, f)
  else
    (some aligned, f.setCurOffset ((f.curOffset + (pad + size) % U32) % U32))

/-- A sequence of `Allocate` calls within one frame (no `BeginFrame`). -/
def frameRun (f : FrameAllocator) : List (Nat × Nat) → List (Option Nat) × FrameAllocator
  | [] => ([], f)
  | (size, al) :: rest =>
      let r := f.Allocate size al
      let rec' := frameRun r.2 rest
      (r.1 :: rec'.1, rec'.2)

/-- Decidable statement that every call of the in-frame sequence has a
power-of-two alignment, performs no overflowing address arithmetic, and fits
(with its padding) in the remaining part of the active buffer. -/
def fitsFrameRun (f : FrameAllocator) : List (Nat × Nat) → Bool
  | [] => true
  | (size, al) :: rest =>
      (pow2b al && decide (f.curBuffer + f.curOffset + (al - 1) < UPTR)
          && decide (f.curOffset
              + sub64 (alignUp ((f.curBuffer + f.curOffset) % UPTR) al)
                  ((f.curBuffer + f.curOffset) % UPTR) + size ≤ f.bufferSize))
        && fitsFrameRun (f.Allocate size al).2 rest

/-!
## PoolAllocator (`src/Core/Memory/PoolAllocator.h`)

`chunks` is the `std::vector<void*> _chunks` of chunk base addresses, and
`freeList` abstracts the intrusive singly linked free list threaded through
the slots' own storage (head first; the "next" pointer stored in each free
slot is the following list entry).  `block` arguments are the addresses
returned by the `std::malloc` call inside `AllocateChunk` (`0` = null).
-/

structure PoolAllocator where
  elemSize : Nat
  chunkCount : Nat
  chunks : List Nat
  freeList : List Nat

/-- `Align(v, a)`: `(v + (a - 1)) & ~(a - 1)` in `size_t` arithmetic. -/
def PoolAllocator.Align (v a : Nat) : Nat :=
  ((v + (a - 1)) % UPTR) &&& (compl64 (a - 1))

/-- `AllocateChunk()`: records the malloc'd block in `_chunks` (without any
null check) and pushes every slot `block + i * _elemSize`,
`i = 0 .. _chunkCount - 1`, onto the free list in loop order. -/
def PoolAllocator.AllocateChunk (p : PoolAllocator) (block : Nat) : PoolAllocator :=
  { p with
    chunks := p.chunks ++ [block],
    freeList := (List.range p.chunkCount).foldl
      (fun fl i => ((block + i * p.elemSize) % UPTR) :: fl) p.freeList }

/-- `Allocate()`: refills from a fresh chunk when the free list is empty,
then pops and returns the free-list head.  The `[]` fallback arm models the
null free-list dereference the C++ performs when `_chunkCount = 0`
(unreachable whenever `_chunkCount ≥ 1`). -/
def PoolAllocator.Allocate (p : PoolAllocator) (block : Nat) : Nat × PoolAllocator :=
  let p1 := if p.freeList = [] then p.AllocateChunk block else p
  match p1.freeList with
  | [] => (0, p1)
  | x :: rest => (x, { p1 with freeList := rest })

/-- `Deallocate(ptr)`: pushes `ptr` onto the free-list head. -/
def PoolAllocator.Deallocate (p : PoolAllocator) (ptr : Nat) : PoolAllocator :=
  { p with freeList := ptr :: p.freeList }

/-- The constructor `PoolAllocator(elementSize, chunkCount)`:
`_elemSize = Align(elementSize, sizeof(void*))` (64-bit target:
`sizeof(void*) = 8`), then `AllocateChunk()` with the first malloc'd block. -/
def mkPool (elementSize chunkCount firstBlock : Nat) : PoolAllocator :=
  PoolAllocator.AllocateChunk
    { elemSize := PoolAllocator.Align elementSize 8, chunkCount := chunkCount,
      chunks := [], freeList := [] } firstBlock

/-- The slot addresses of one chunk, in loop order: these are exactly the
addresses `AllocateChunk` writes free-list links through. -/
def chunkSlots (block e n : Nat) : List Nat :=
  (List.range n).map fun i => (block + i * e) % UPTR

/-!
## DebugAllocator (`src/Core/Memory/DebugAllocator.h`)

`allocs` models the `std::unordered_map<void*, AllocationInfo> _allocs` as
an association list with unique keys (`operator[]` overwrites an existing
key, `erase` removes it); `total` / `peak` are the `size_t` counters.
Diagnostics written to `std::cerr` are returned as values, and the list of
addresses passed to `std::free` is returned alongside so that release
behaviour is observable.
-/

structure AllocationInfo where
  size : Nat
  file : String
  line : Int
  isArray : Bool
deriving DecidableEq

inductive DebugDiagnostic where
  | mismatch (file : String) (line : Int) (recordedIsArray usedIsArray : Bool)
  | unknownPointer (ptr : Nat)
deriving DecidableEq

/-- `_allocs.find(ptr)`. -/
def lookupAlloc : List (Nat × AllocationInfo) → Nat → Option AllocationInfo
  | [], _ => none
  | (q, i) :: rest, p => if q = p then some i else lookupAlloc rest p

/-- `_allocs[ptr] = info` (`operator[]` overwrites an existing key and
otherwise adds the entry). -/
def mapInsert (p : Nat) (v : AllocationInfo) :
    List (Nat × AllocationInfo) → List (Nat × AllocationInfo)
  | [] => [(p, v)]
  | (q, i) :: rest => if q = p then (q, v) :: rest else (q, i) :: mapInsert p v rest

/-- `_allocs.erase(it)` for the entry with key `p`. -/
def eraseKey (p : Nat) : List (Nat × AllocationInfo) → List (Nat × AllocationInfo)
  | [] => []
  | (q, i) :: rest => if q = p then rest else (q, i) :: eraseKey p rest

structure DebugAllocator where
  allocs : List (Nat × AllocationInfo)
  total : Nat
  peak : Nat
deriving DecidableEq

/-- `Allocate(size, file, line, isArray)`; `mallocResult` is the address
`std::malloc(size)` returned (`0` = null).  Returns the pointer (which the
code returns unconditionally) and the new state. -/
def DebugAllocator.Allocate (s : DebugAllocator) (size : Nat) (file : String) (line : Int)
    (isArray : Bool) (mallocResult : Nat) : Nat × DebugAllocator :=
  if mallocResult ≠ 0 then
    let total' := (s.total + size) % UPTR
    (mallocResult,
      { allocs := mapInsert mallocResult ⟨size, file, line, isArray⟩ s.allocs,
        total := total',
        peak := if s.peak < total' then total' else s.peak })
  else (mallocResult, s)

/-- `Free(ptr, isArray)`: returns the new state, the diagnostics written to
`std::cerr`, and the list of addresses passed to `std::free`. -/
def DebugAllocator.Free (s : DebugAllocator) (ptr : Nat) (isArray : Bool) :
    DebugAllocator × List DebugDiagnostic × List Nat :=
  if ptr = 0 then (s, [], [])
  else
    match lookupAlloc s.allocs ptr with
    | some info =>
        ({ allocs := eraseKey ptr s.allocs,
           total := sub64 s.total info.size,
           peak := s.peak },
         if info.isArray ≠ isArray then
           [DebugDiagnostic.mismatch info.file info.line info.isArray isArray]
         else [],
         [ptr])
    | none => (s, [DebugDiagnostic.unknownPointer ptr], [ptr])

/-- `ReportLeaks()`: the enumerated still-live entries and the reported
peak value. -/
def DebugAllocator.ReportLeaks (s : DebugAllocator) : List (Nat × AllocationInfo) × Nat :=
  (s.allocs, s.peak)

/-- The freshly constructed tracker (empty map, zero counters). -/
def initDebug : DebugAllocator := { allocs := [], total := 0, peak := 0 }

inductive DebugEvent where
  | alloc (size : Nat) (file : String) (line : Int) (isArray : Bool) (mallocResult : Nat)
  | free (ptr : Nat) (isArray : Bool)

/-- Running a trace of `Allocate` / `Free` calls through the tracker. -/
def runDebug (s : DebugAllocator) : List DebugEvent → DebugAllocator
  | [] => s
  | DebugEvent.alloc size file line isArray p :: rest =>
      runDebug (s.Allocate size file line isArray p).2 rest
  | DebugEvent.free p arr :: rest => runDebug (s.Free p arr).1 rest

/-- Specification-level live-allocation set, following the spec's words:
the non-null addresses returned by `Allocate` and not yet passed to `Free`,
each with the size / source location / shape recorded at allocation time.
Used as the reference the implementation's map is compared against. -/
def liveSpecFrom (acc : List (Nat × AllocationInfo)) :
    List DebugEvent → List (Nat × AllocationInfo)
  | [] => acc
  | DebugEvent.alloc size file line isArray p :: rest =>
      liveSpecFrom (if p ≠ 0 then (p, ⟨size, file, line, isArray⟩) :: acc else acc) rest
  | DebugEvent.free p _ :: rest => liveSpecFrom (eraseKey p acc) rest

/-- Decidable statement that each successful `malloc` result in the trace is
fresh: non-null results never collide with a currently live address (the
system allocator cannot return memory that is still allocated). -/
def freshRun (s : DebugAllocator) : List DebugEvent → Bool
  | [] => true
  | DebugEvent.alloc size file line isArray p :: rest =>
      (p == 0 || (lookupAlloc s.allocs p).isNone)
        && freshRun (s.Allocate size file line isArray p).2 rest
  | DebugEvent.free p arr :: rest => freshRun (s.Free p arr).1 rest

/-- Total bytes requested by the `Allocate` events of a trace. -/
def traceAllocBytes : List DebugEvent → Nat
  | [] => 0
  | DebugEvent.alloc size _ _ _ _ :: rest => size + traceAllocBytes rest
  | DebugEvent.free _ _ :: rest => traceAllocBytes rest

/-- Sum of the recorded sizes of the live entries. -/
def liveBytes (l : List (Nat × AllocationInfo)) : Nat :=
  (l.map fun kv => kv.2.size).sum

/-- The keys (live addresses) of the map. -/
def keysOf (l : List (Nat × AllocationInfo)) : List Nat := l.map Prod.fst

/-!
### Concrete states used in witnesses, counterexamples and scenarios
-/

/-- Fresh borrowed 64-byte arena at (8-aligned) base address 8. -/
def c1arena : ArenaAllocator :=
  { head := 8, tail := 8, capacity := 64, owned := false, mem := fun _ => 0 }

/-- Owned 64-byte arena with 40 bytes allocated (the spec's growth scenario). -/
def c2arena : ArenaAllocator :=
  { head := 16, tail := 56, capacity := 64, owned := true, mem := fun _ => 0 }

/-- Borrowed 100-byte arena with 50 bytes allocated. -/
def c7arena : ArenaAllocator :=
  { head := 8, tail := 58, capacity := 100, owned := false, mem := fun _ => 0 }

/-- Fresh owned 16-byte arena. -/
def c8arena : ArenaAllocator :=
  { head := 8, tail := 8, capacity := 16, owned := true, mem := fun _ => 0 }

/-- Frame allocator whose buffers are `2 ^ 32` bytes (offset counter width). -/
def frameBig : FrameAllocator :=
  { buffer0 := 16, buffer1 := 2 ^ 40, offset0 := 0, offset1 := 0,
    current := 0, bufferSize := 2 ^ 32 }

/-- Frame allocator with 64-byte buffers, 10 bytes used in the active one. -/
def frameSmall : FrameAllocator :=
  { buffer0 := 16, buffer1 := 4096, offset0 := 10, offset1 := 0,
    current := 0, bufferSize := 64 }

/-- The spec's pool scenario: element size 24, two slots per chunk, first
chunk malloc'd at 1000, second (when needed) at 2000. -/
def pool0 : PoolAllocator := mkPool 24 2 1000

def poolA1 : Nat × PoolAllocator := pool0.Allocate 0

def poolA2 : Nat × PoolAllocator := poolA1.2.Allocate 0

def poolA3 : Nat × PoolAllocator := poolA2.2.Allocate 2000

def poolD : PoolAllocator :=
  ((poolA3.2.Deallocate poolA1.1).Deallocate poolA2.1).Deallocate poolA3.1

def poolB1 : Nat × PoolAllocator := poolD.Allocate 0

def poolB2 : Nat × PoolAllocator := poolB1.2.Allocate 0

def poolB3 : Nat × PoolAllocator := poolB2.2.Allocate 0

/-- Tracker state holding one recorded scalar allocation at address 100. -/
def dbgS : DebugAllocator :=
  { allocs := [(100, ⟨10, "a.cpp", 3, false⟩)], total := 10, peak := 10 }

/-- Concrete tracker trace: two allocations, the first one freed. -/
def dbgTr : List DebugEvent :=
  [DebugEvent.alloc 10 "a.cpp" 3 false 100,
   DebugEvent.alloc 20 "b.cpp" 7 true 200,
   DebugEvent.free 100 false]

/-!
### Failure-path lemmas for the arena and the frame allocator
-/

/-- A borrowed arena whose capacity check fails returns null and is left
completely unchanged. -/
theorem ArenaAllocator.Allocate_borrowed_fail (a : ArenaAllocator) (size al : Nat)
    (r : Option Nat) (hb : a.owned = false)
    (h : (a.Size + sub64 (alignUp a.tail al) a.tail + size) % UPTR > a.capacity) :
    a.Allocate size al r = (none, a) := by
  unfold ArenaAllocator.Allocate
  simp only []
  rw [if_pos h]
  unfold ArenaAllocator.Grow
  rw [if_pos hb]

/-- An arena whose capacity check fails and whose `realloc` fails returns
null and is left completely unchanged. -/
theorem ArenaAllocator.Allocate_growfail (a : ArenaAllocator) (size al : Nat)
    (h : (a.Size + sub64 (alignUp a.tail al) a.tail + size) % UPTR > a.capacity) :
    a.Allocate size al none = (none, a) := by
  unfold ArenaAllocator.Allocate
  simp only []
  rw [if_pos h]
  unfold ArenaAllocator.Grow
  by_cases hb : a.owned = false
  · rw [if_pos hb]
  · rw [if_neg hb]

/-- A frame allocator whose capacity check fails returns null and is left
completely unchanged. -/
theorem FrameAllocator.Allocate_fail (f : FrameAllocator) (size al : Nat)
    (h : (f.curOffset + sub64 (alignUp ((f.curBuffer + f.curOffset) % UPTR) al)
        ((f.curBuffer + f.curOffset) % UPTR) + size) % UPTR > f.bufferSize) :
    f.Allocate size al = (none, f) := by
  unfold FrameAllocator.Allocate
  simp only []
  rw [if_pos h]

/-- C3: whenever `ArenaAllocator::Allocate` or `FrameAllocator::Allocate`
cannot satisfy a request — borrowed arena with insufficient remaining
capacity, owned arena whose reallocation fails, or frame buffer whose fixed
size would be exceeded by the padded request — the call returns null and the
entire observable state (head, tail, capacity; both offsets, the active
index, the buffers) is unchanged; the operations are total functions of the
state (no throw / abort).  The last three conjuncts instantiate the three
failure modes on concrete states. -/
theorem allocators_fail_null_no_side_effects :
    (∀ (a : ArenaAllocator) (size al : Nat) (r : Option Nat),
        a.owned = false →
        (a.Size + sub64 (alignUp a.tail al) a.tail + size) % UPTR > a.capacity →
        a.Allocate size al r = (none, a)) ∧
    (∀ (a : ArenaAllocator) (size al : Nat),
        (a.Size + sub64 (alignUp a.tail al) a.tail + size) % UPTR > a.capacity →
        a.Allocate size al none = (none, a)) ∧
    (∀ (f : FrameAllocator) (size al : Nat),
        (f.curOffset + sub64 (alignUp ((f.curBuffer + f.curOffset) % UPTR) al)
            ((f.curBuffer + f.curOffset) % UPTR) + size) % UPTR > f.bufferSize →
        f.Allocate size al = (none, f)) ∧
    c7arena.Allocate 200 8 none = (none, c7arena) ∧
    c8arena.Allocate 100 8 none = (none, c8arena) ∧
    frameSmall.Allocate 60 16 = (none, frameSmall) := by
  refine ⟨?_, ?_, ?_, ?_, ?_, ?_⟩
  · intro a size al r hb h
    exact a.Allocate_borrowed_fail size al r hb h
  · intro a size al h
    exact a.Allocate_growfail size al h
  · intro f size al h
    exact f.Allocate_fail size al h
  · exact c7arena.Allocate_borrowed_fail 200 8 none rfl (by decide)
  · exact c8arena.Allocate_growfail 100 8 (by decide)
  · exact frameSmall.Allocate_fail 60 16 (by decide)

/-- A single public call on a borrowed arena never changes `capacity`,
`owned` or `head`. -/
theorem ArenaAllocator.applyOp_borrowed (a : ArenaAllocator) (op : ArenaOp)
    (hb : a.owned = false) :
    (a.applyOp op).capacity = a.capacity ∧ (a.applyOp op).owned = false ∧
      (a.applyOp op).head = a.head := by
  cases op with
  | reset => exact ⟨rfl, hb, rfl⟩
  | alloc size al r =>
      show ((a.Allocate size al r).2.capacity = a.capacity
        ∧ (a.Allocate size al r).2.owned = false ∧ (a.Allocate size al r).2.head = a.head)
      by_cases h : (a.Size + sub64 (alignUp a.tail al) a.tail + size) % UPTR > a.capacity
      · rw [a.Allocate_borrowed_fail size al r hb h]
        exact ⟨rfl, hb, rfl⟩
      · rw [a.Allocate_nogrow size al r (by omega)]
        exact ⟨rfl, hb, rfl⟩

/-- A sequence of public calls on a borrowed arena never changes `capacity`
or `owned`. -/
theorem ArenaAllocator.applyOps_borrowed (ops : List ArenaOp) :
    ∀ a : ArenaAllocator, a.owned = false →
      (a.applyOps ops).capacity = a.capacity ∧ (a.applyOps ops).owned = false := by
  induction ops with
  | nil => intro a hb; exact ⟨rfl, hb⟩
  | cons op rest ih =>
      intro a hb
      obtain ⟨h1, h2, _⟩ := a.applyOp_borrowed op hb
      obtain ⟨ih1, ih2⟩ := ih (a.applyOp op) h2
      exact ⟨by rw [ArenaAllocator.applyOps, ih1, h1], by rw [ArenaAllocator.applyOps]; exact ih2⟩

/-- C7 (amended): for a borrowed (non-owned) arena, `Capacity()` is never
modified by any sequence of `Allocate` / `Reset` calls; and an `Allocate`
whose padded request exceeds the remaining capacity returns null whenever
the `size_t` sum `Size() + padding + size` does not wrap around 2^64.  (The
unamended claim — null for *every* requested size without exception — fails:
a size large enough to wrap the sum bypasses the capacity check, see the
counterexample.) -/
theorem arena_borrowed_fixed_capacity (a : ArenaAllocator) (ops : List ArenaOp)
    (hb : a.owned = false) :
    (a.applyOps ops).Capacity = a.Capacity ∧
    (∀ size al r, a.Size + sub64 (alignUp a.tail al) a.tail + size < UPTR →
        a.capacity < a.Size + sub64 (alignUp a.tail al) a.tail + size →
        (a.Allocate size al r).1 = none) := by
  refine ⟨(ArenaAllocator.applyOps_borrowed ops a hb).1, ?_⟩
  intro size al r hnov hexc
  have h : (a.Size + sub64 (alignUp a.tail al) a.tail + size) % UPTR > a.capacity := by
    rw [Nat.mod_eq_of_lt hnov]
    exact hexc
  rw [a.Allocate_borrowed_fail size al r hb h]

/-- Witness for C7's amended theorem on a concrete borrowed arena: an
allocation run leaves the capacity at 100, and an oversized (non-wrapping)
request is refused. -/
theorem arena_borrowed_fixed_capacity_witness :
    (c7arena.applyOps
        [ArenaOp.alloc 5 1 none, ArenaOp.reset, ArenaOp.alloc 200 8 none]).Capacity
      = c7arena.Capacity ∧
    (c7arena.Allocate 200 8 none).1 = none :=
  ⟨(arena_borrowed_fixed_capacity c7arena
      [ArenaOp.alloc 5 1 none, ArenaOp.reset, ArenaOp.alloc 200 8 none] rfl).1,
   (arena_borrowed_fixed_capacity c7arena [] rfl).2 200 8 none (by decide) (by decide)⟩

/-- Counterexample to C7 as stated ("returns null for every requested size
without exception"): on a borrowed arena with 50 of 100 bytes used, a
request of `2^64 - 40` bytes mathematically exceeds the remaining capacity,
yet the wrapping `size_t` capacity check passes and the call returns a
non-null pointer. -/
theorem arena_borrowed_fixed_capacity_cex :
    c7arena.capacity < c7arena.Size + sub64 (alignUp c7arena.tail 8) c7arena.tail
        + (2 ^ 64 - 40) ∧
    (c7arena.Allocate (2 ^ 64 - 40) 8 none).1 = some 64 := by decide

/-- A run in which no `Allocate` enters the growth branch leaves `head` and
`capacity` untouched. -/
theorem noGrowthRun_preserves (ops : List ArenaOp) :
    ∀ a : ArenaAllocator, noGrowthRun a ops = true →
      (a.applyOps ops).head = a.head ∧ (a.applyOps ops).capacity = a.capacity := by
  induction ops with
  | nil => intro a _; exact ⟨rfl, rfl⟩
  | cons op rest ih =>
      intro a h
      cases op with
      | reset =>
          rw [noGrowthRun] at h
          obtain ⟨ih1, ih2⟩ := ih a.Reset h
          exact ⟨by rw [ArenaAllocator.applyOps]; exact ih1,
                 by rw [ArenaAllocator.applyOps]; exact ih2⟩
      | alloc size al r =>
          rw [noGrowthRun, Bool.and_eq_true, decide_eq_true_eq] at h
          obtain ⟨hc, hrest⟩ := h
          have heq := a.Allocate_nogrow size al r hc
          obtain ⟨ih1, ih2⟩ := ih (a.Allocate size al r).2 hrest
          constructor
          · show ((a.Allocate size al r).2.applyOps rest).head = a.head
            rw [ih1, heq]
          · show ((a.Allocate size al r).2.applyOps rest).capacity = a.capacity
            rw [ih2, heq]

/-- C8 (amended): if the first-ever `Allocate` (on a fresh arena,
`tail = head`) fits without growth and returns `p`, then after any further
sequence of `Allocate` / `Reset` calls in which no call enters the growth
branch, `Reset()` followed by an `Allocate` of the same size and alignment
returns `p` again.  (The unamended claim — the same address after *any*
further sequence — fails when an intervening allocation grows and relocates
the buffer, see the counterexample.) -/
theorem arena_reset_replay_no_growth (a : ArenaAllocator) (ops : List ArenaOp)
    (size al : Nat) (r r' : Option Nat)
    (hfresh : a.tail = a.head)
    (h1 : (a.Size + sub64 (alignUp a.tail al) a.tail + size) % UPTR ≤ a.capacity)
    (hops : noGrowthRun (a.Allocate size al r).2 ops = true) :
    (((a.Allocate size al r).2.applyOps ops).Reset.Allocate size al r').1
      = (a.Allocate size al r).1 := by
  have heq := a.Allocate_nogrow size al r h1
  obtain ⟨hh, hc⟩ := noGrowthRun_preserves ops (a.Allocate size al r).2 hops
  have hh' : ((a.Allocate size al r).2.applyOps ops).head = a.head := by
    rw [hh, heq]
  have hc' : ((a.Allocate size al r).2.applyOps ops).capacity = a.capacity := by
    rw [hc, heq]
  set b := ((a.Allocate size al r).2.applyOps ops).Reset with hbdef
  have hbt : b.tail = a.head := hh'
  have hbh : b.head = a.head := hh'
  have hbc : b.capacity = a.capacity := hc'
  unfold ArenaAllocator.Size at h1
  rw [hfresh] at h1
  have hcond : (b.Size + sub64 (alignUp b.tail al) b.tail + size) % UPTR ≤ b.capacity := by
    unfold ArenaAllocator.Size
    rw [hbt, hbh, hbc]
    exact h1
  rw [b.Allocate_nogrow size al r' hcond, heq]
  simp only []
  rw [hbt, hfresh]

/-- Witness for C8's amended theorem: on a fresh borrowed arena, allocating
5 bytes (alignment 8) yields address 8; after two further fitting
allocations and a `Reset`, the same request yields 8 again. -/
theorem arena_reset_replay_no_growth_witness :
    (((c1arena.Allocate 5 8 none).2.applyOps
        [ArenaOp.alloc 7 8 none, ArenaOp.reset, ArenaOp.alloc 3 4 none]).Reset.Allocate
          5 8 none).1
      = (c1arena.Allocate 5 8 none).1 :=
  arena_reset_replay_no_growth c1arena
    [ArenaOp.alloc 7 8 none, ArenaOp.reset, ArenaOp.alloc 3 4 none]
    5 8 none none rfl (by decide) (by decide)

/-- Counterexample to C8 as stated: on a fresh owned 16-byte arena the first
`Allocate(8, 8)` returns address 8; a second allocation triggers growth
whose `realloc` moves the buffer to base 64; after `Reset()` the same
request returns 64, not 8. -/
theorem arena_reset_replay_cex :
    (c8arena.Allocate 8 8 none).1 = some 8 ∧
    (((c8arena.Allocate 8 8 none).2.applyOps
        [ArenaOp.alloc 16 8 (some 64)]).Reset.Allocate 8 8 none).1 = some 64 ∧
    some 64 ≠ (some 8 : Option Nat) := by decide

/-- `Grow` on an owned arena with a successful `realloc` to base `b`:
the capacity grows by `add` and the used prefix moves to offsets from `b`. -/
theorem ArenaAllocator.Grow_some (a : ArenaAllocator) (add b : Nat) (hown : a.owned = true) :
    a.Grow add (some b) = some
      { head := b, tail := (b + a.Size) % UPTR,
        capacity := (a.capacity + add) % UPTR, owned := a.owned,
        mem := fun i => if b ≤ i ∧ i < b + a.Size then a.mem (a.head + (i - b)) else 0 } := by
  unfold ArenaAllocator.Grow
  rw [if_neg (by rw [hown]; simp)]

/-- `Allocate` through the growth branch with a successful `realloc`. -/
theorem ArenaAllocator.Allocate_grow_some (a : ArenaAllocator) (size al b : Nat)
    (hown : a.owned = true)
    (htrig : (a.Size + sub64 (alignUp a.tail al) a.tail + size) % UPTR > a.capacity) :
    a.Allocate size al (some b) =
      (some (alignUp ((b + a.Size) % UPTR) al),
       { head := b, tail := (alignUp ((b + a.Size) % UPTR) al + size) % UPTR,
         capacity := (a.capacity + max ((a.capacity * 2) % UPTR)
           ((sub64 (alignUp a.tail al) a.tail + size) % UPTR)) % UPTR,
         owned := a.owned,
         mem := fun i => if b ≤ i ∧ i < b + a.Size then a.mem (a.head + (i - b)) else 0 }) := by
  unfold ArenaAllocator.Allocate
  simp only []
  rw [if_pos htrig, a.Grow_some _ b hown]

/-- C2 (amended): when an owned arena's padded request exceeds the current
capacity and the reallocation succeeds, the new capacity equals the *old
capacity plus* the larger of (a) double the old capacity and (b) the
padding-plus-size required by the request (`size_t` arithmetic) — not the
maximum itself as the claim states; the allocation succeeds, the used prefix
is preserved at the same offsets from the new `head`, and in the spec's
64/40/40 scenario the capacity becomes 192 (≥ 128) with `Size() = 80`. -/
theorem arena_growth_adds_max :
    (∀ (a : ArenaAllocator) (size al b : Nat), a.owned = true →
        (a.Size + sub64 (alignUp a.tail al) a.tail + size) % UPTR > a.capacity →
        ((a.Allocate size al (some b)).1 = some (alignUp ((b + a.Size) % UPTR) al) ∧
         (a.Allocate size al (some b)).2.capacity
            = (a.capacity + max ((a.capacity * 2) % UPTR)
                ((sub64 (alignUp a.tail al) a.tail + size) % UPTR)) % UPTR ∧
         (a.Allocate size al (some b)).2.head = b ∧
         (∀ i, i < a.Size →
            (a.Allocate size al (some b)).2.mem (b + i) = a.mem (a.head + i)))) ∧
    ((c2arena.Allocate 40 8 (some 16)).1 = some 56 ∧
     (c2arena.Allocate 40 8 (some 16)).2.capacity = 192 ∧
     128 ≤ (c2arena.Allocate 40 8 (some 16)).2.capacity ∧
     (c2arena.Allocate 40 8 (some 16)).2.Size = 80) := by
  constructor
  · intro a size al b hown htrig
    rw [a.Allocate_grow_some size al b hown htrig]
    refine ⟨rfl, rfl, rfl, ?_⟩
    intro i hi
    show (if b ≤ b + i ∧ b + i < b + a.Size then a.mem (a.head + (b + i - b)) else 0)
      = a.mem (a.head + i)
    rw [if_pos ⟨Nat.le_add_right _ _, by omega⟩]
    congr 1
    omega
  · exact ⟨by decide, by decide, by decide, by decide⟩

/-- Counterexample to C2 as stated: in the spec's own scenario (owned
64-byte arena holding 40 bytes, second 40-byte request, alignment 8) the
new capacity is 192, which differs from "the larger of double the old
capacity and the bytes required" under either reading of the required bytes
(40 = padding + size, or 80 = used + padding + size). -/
theorem arena_growth_adds_max_cex :
    (c2arena.Allocate 40 8 (some 16)).2.capacity = 192 ∧
    ¬((c2arena.Allocate 40 8 (some 16)).2.capacity
        = max (c2arena.capacity * 2)
            (sub64 (alignUp c2arena.tail 8) c2arena.tail + 40)) ∧
    ¬((c2arena.Allocate 40 8 (some 16)).2.capacity
        = max (c2arena.capacity * 2)
            (c2arena.Size + sub64 (alignUp c2arena.tail 8) c2arena.tail + 40)) := by
  decide

/-- C1: for every sequence of `Allocate(size, alignment)` calls on a fresh
well-formed arena, with power-of-two alignments, non-overflowing address
arithmetic, and padded requests that all fit in the current capacity (so no
growth occurs), every call succeeds, each returned address is a multiple of
its requested alignment, the returned byte ranges are pairwise
non-overlapping, and afterwards `Size()` equals the sum of all requested
sizes plus all alignment padding inserted. -/
theorem arena_run_nonoverlap_aligned_size (a : ArenaAllocator) (calls : List (Nat × Nat))
    (hwf : a.WF) (hfresh : a.tail = a.head) (hfits : fitsRun a calls = true) :
    ∃ addrs : List Nat,
      (runAllocs a calls).1 = addrs.map some ∧
      addrs.length = calls.length ∧
      (∀ pr ∈ addrs.zip calls, pr.2.2 ∣ pr.1) ∧
      List.Pairwise (fun x y => x.1 + x.2 ≤ y.1 ∨ y.1 + y.2 ≤ x.1)
        (addrs.zip (calls.map Prod.fst)) ∧
      (runAllocs a calls).2.Size
        = (calls.map Prod.fst).sum + (runPaddings a calls).sum := by
  obtain ⟨addrs, h1, h2, h3, h4, h5, h6, h7, h8, h9⟩ := runAllocs_fits calls a hwf hfits
  refine ⟨addrs, h1, h2, h4, h5.imp fun h => Or.inl h, ?_⟩
  obtain ⟨w1, w2, w3⟩ := h9
  have hltU : (runAllocs a calls).2.tail < UPTR := by omega
  unfold ArenaAllocator.Size
  rw [sub64_eq_sub w1 hltU, h6, h7, hfresh]
  omega

/-- Witness for C1 on a fresh borrowed 64-byte arena and three calls with
alignments 1, 8 and 4. -/
theorem arena_run_nonoverlap_aligned_size_witness :
    c1arena.WF ∧ fitsRun c1arena [(5, 1), (7, 8), (4, 4)] = true ∧
    (∃ addrs : List Nat,
      (runAllocs c1arena [(5, 1), (7, 8), (4, 4)]).1 = addrs.map some ∧
      addrs.length = ([(5, 1), (7, 8), (4, 4)] : List (Nat × Nat)).length ∧
      (∀ pr ∈ addrs.zip [(5, 1), (7, 8), (4, 4)], pr.2.2 ∣ pr.1) ∧
      List.Pairwise (fun x y => x.1 + x.2 ≤ y.1 ∨ y.1 + y.2 ≤ x.1)
        (addrs.zip (([(5, 1), (7, 8), (4, 4)] : List (Nat × Nat)).map Prod.fst)) ∧
      (runAllocs c1arena [(5, 1), (7, 8), (4, 4)]).2.Size
        = (([(5, 1), (7, 8), (4, 4)] : List (Nat × Nat)).map Prod.fst).sum
            + (runPaddings c1arena [(5, 1), (7, 8), (4, 4)]).sum) :=
  ⟨by decide, by decide,
   arena_run_nonoverlap_aligned_size c1arena [(5, 1), (7, 8), (4, 4)]
     (by decide) rfl (by decide)⟩

/-- Pool whose first chunk is full and whose next `malloc` will fail
(the growth oracle returns the null address 0). -/
def poolNull : PoolAllocator :=
  { elemSize := 24, chunkCount := 2, chunks := [1000], freeList := [] }

/-- The free-list push loop of `AllocateChunk` threads exactly the chunk's
slots, in loop order, on top of the previous free list. -/
theorem foldl_chunkSlots (block e : Nat) :
    ∀ (n : Nat) (init : List Nat),
      (List.range n).foldl (fun fl i => ((block + i * e) % UPTR) :: fl) init
        = (chunkSlots block e n).reverse ++ init := by
  intro n
  induction n with
  | zero => intro init; simp [chunkSlots]
  | succ m ih =>
      intro init
      rw [List.range_succ, List.foldl_append, ih]
      simp only [chunkSlots, List.range_succ, List.map_append, List.reverse_append]
      simp

/-- The top of the just-pushed chunk is its last slot. -/
theorem chunkSlots_reverse_head (block e n : Nat) (hn : 1 ≤ n) :
    ∃ rest, (chunkSlots block e n).reverse
      = ((block + (n - 1) * e) % UPTR) :: rest := by
  obtain ⟨m, rfl⟩ : ∃ m, n = m + 1 := ⟨n - 1, by omega⟩
  refine ⟨(chunkSlots block e m).reverse, ?_⟩
  rw [chunkSlots, List.range_succ, List.map_append, List.reverse_append]
  simp [chunkSlots]

/-- `Allocate` with a non-empty free list pops and returns the head. -/
theorem PoolAllocator.Allocate_pop (p : PoolAllocator) (block x : Nat) (rest : List Nat)
    (h : p.freeList = x :: rest) :
    p.Allocate block = (x, { p with freeList := rest }) := by
  unfold PoolAllocator.Allocate
  simp only []
  rw [if_neg (by rw [h]; simp), h]

/-- `Allocate` with an empty free list first runs `AllocateChunk` and then
pops the head of the refilled free list. -/
theorem PoolAllocator.Allocate_refill (p : PoolAllocator) (block : Nat)
    (hempty : p.freeList = []) :
    ∀ x rest, (p.AllocateChunk block).freeList = x :: rest →
      p.Allocate block = (x, { p.AllocateChunk block with freeList := rest }) := by
  intro x rest hfl
  unfold PoolAllocator.Allocate
  simp only []
  rw [if_pos hempty, hfl]

/-- The refilled free list is the new chunk's slots (in reverse push order)
on top of the old list. -/
theorem PoolAllocator.AllocateChunk_freeList (p : PoolAllocator) (block : Nat) :
    (p.AllocateChunk block).freeList
      = (chunkSlots block p.elemSize p.chunkCount).reverse ++ p.freeList :=
  foldl_chunkSlots block p.elemSize p.chunkCount p.freeList

/-- C9: `PoolAllocator` never checks the `malloc` result during chunk
growth: for *every* block address the system allocator returns — including
the null address 0 — `Allocate` on an empty free list records the block as
a chunk, threads the free list through the block's slots, and returns the
topmost slot; it has no null-returning failure path.  The final conjuncts
evaluate the null-malloc case concretely: the setup writes and the returned
slot are null-derived addresses `0, elemSize, …` inside the first
`elemSize * chunkCount` bytes of the address space. -/
theorem pool_growth_unchecked :
    (∀ (p : PoolAllocator) (block : Nat), p.freeList = [] →
        (p.Allocate block).2.chunks = p.chunks ++ [block]) ∧
    (∀ (p : PoolAllocator) (block : Nat), p.freeList = [] → 1 ≤ p.chunkCount →
        (p.Allocate block).1 = (block + (p.chunkCount - 1) * p.elemSize) % UPTR) ∧
    (∀ (p : PoolAllocator) (block : Nat),
        (p.AllocateChunk block).freeList
          = (chunkSlots block p.elemSize p.chunkCount).reverse ++ p.freeList) ∧
    (∀ e n : Nat, 1 ≤ e → e * n < UPTR →
        ∀ w ∈ chunkSlots 0 e n, w < e * n) ∧
    ((poolNull.Allocate 0).1 = 24 ∧ (poolNull.Allocate 0).2.chunks = [1000, 0] ∧
      (poolNull.Allocate 0).2.freeList = [0]) := by
  refine ⟨?_, ?_, ?_, ?_, by decide⟩
  · intro p block hempty
    cases hfl : (p.AllocateChunk block).freeList with
    | nil =>
        show ((p.Allocate block).2.chunks = p.chunks ++ [block])
        unfold PoolAllocator.Allocate
        simp only []
        rw [if_pos hempty, hfl]
        rfl
    | cons x rest =>
        rw [p.Allocate_refill block hempty x rest hfl]
        rfl
  · intro p block hempty hn
    obtain ⟨rest, hrev⟩ := chunkSlots_reverse_head block p.elemSize p.chunkCount hn
    have hfl : (p.AllocateChunk block).freeList
        = ((block + (p.chunkCount - 1) * p.elemSize) % UPTR) :: rest := by
      rw [p.AllocateChunk_freeList block, hempty, List.append_nil, hrev]
    rw [p.Allocate_refill block hempty _ rest hfl]
  · intro p block
    exact p.AllocateChunk_freeList block
  · intro e n he hlt w hw
    rcases List.mem_map.mp hw with ⟨i, hi, rfl⟩
    have hi' : i < n := List.mem_range.mp hi
    have h1 : i * e < n * e := (Nat.mul_lt_mul_right (by omega)).mpr hi'
    have h2 : n * e = e * n := Nat.mul_comm _ _
    have h3 : (0 + i * e) % UPTR = i * e := by
      rw [Nat.zero_add, Nat.mod_eq_of_lt (by omega)]
    rw [h3]
    omega

/-- C6: `PoolAllocator::Allocate` pops and returns the free-list head; on an
empty free list it first pushes all slots of one new chunk of
`chunkCount × elemSize` bytes (aligned element size) onto the free list and
then satisfies the request from it.  The final block of conjuncts evaluates
the spec's scenario — element size 24, chunk count 2: of three allocations
the first two come from chunk 1 and the third creates chunk 2; after
deallocating all three, three further allocations succeed without a third
chunk. -/
theorem pool_freelist_pop_and_refill :
    (∀ (p : PoolAllocator) (block x : Nat) (rest : List Nat), p.freeList = x :: rest →
        p.Allocate block = (x, { p with freeList := rest })) ∧
    (∀ (p : PoolAllocator) (block : Nat), p.freeList = [] → 1 ≤ p.chunkCount →
        ((p.Allocate block).1 :: (p.Allocate block).2.freeList
            = (chunkSlots block p.elemSize p.chunkCount).reverse ∧
         (p.Allocate block).2.chunks = p.chunks ++ [block])) ∧
    (∀ (p : PoolAllocator) (block : Nat), block + p.elemSize * p.chunkCount < UPTR →
        ∀ s ∈ chunkSlots block p.elemSize p.chunkCount,
          block ≤ s ∧ s + p.elemSize ≤ block + p.elemSize * p.chunkCount) ∧
    (pool0.elemSize = 24 ∧ pool0.chunkCount = 2 ∧
     pool0.freeList = [1024, 1000] ∧ pool0.chunks = [1000] ∧
     poolA1.1 = 1024 ∧ poolA2.1 = 1000 ∧
     1000 ≤ poolA1.1 ∧ poolA1.1 + 24 ≤ 1048 ∧ 1000 ≤ poolA2.1 ∧ poolA2.1 + 24 ≤ 1048 ∧
     poolA2.2.freeList = [] ∧ poolA2.2.chunks = [1000] ∧
     poolA3.1 = 2024 ∧ poolA3.2.chunks = [1000, 2000] ∧
     2000 ≤ poolA3.1 ∧ poolA3.1 + 24 ≤ 2048 ∧
     poolB1.1 = 2024 ∧ poolB2.1 = 1000 ∧ poolB3.1 = 1024 ∧
     poolB3.2.chunks = [1000, 2000]) := by
  refine ⟨?_, ?_, ?_, by decide⟩
  · intro p block x rest h
    exact p.Allocate_pop block x rest h
  · intro p block hempty hn
    obtain ⟨rest, hrev⟩ := chunkSlots_reverse_head block p.elemSize p.chunkCount hn
    have hfl : (p.AllocateChunk block).freeList
        = ((block + (p.chunkCount - 1) * p.elemSize) % UPTR) :: rest := by
      rw [p.AllocateChunk_freeList block, hempty, List.append_nil, hrev]
    rw [p.Allocate_refill block hempty _ rest hfl]
    constructor
    · show ((block + (p.chunkCount - 1) * p.elemSize) % UPTR) :: rest
        = (chunkSlots block p.elemSize p.chunkCount).reverse
      rw [hrev]
    · rfl
  · intro p block hov s hs
    rcases List.mem_map.mp hs with ⟨i, hi, rfl⟩
    have hi' : i < p.chunkCount := List.mem_range.mp hi
    have h1 : (i + 1) * p.elemSize ≤ p.chunkCount * p.elemSize :=
      Nat.mul_le_mul_right _ (by omega)
    have h2 : p.chunkCount * p.elemSize = p.elemSize * p.chunkCount := Nat.mul_comm _ _
    have h3 : (block + i * p.elemSize) % UPTR = block + i * p.elemSize := by
      apply Nat.mod_eq_of_lt
      have : i * p.elemSize ≤ (i + 1) * p.elemSize := Nat.mul_le_mul_right _ (by omega)
      omega
    rw [h3]
    have h4 : (i + 1) * p.elemSize = i * p.elemSize + p.elemSize := by ring
    omega

/-- Field-level behaviour of an assignment to `_offsets[_current]`. -/
theorem FrameAllocator.setCurOffset_fields (f : FrameAllocator) (v : Nat) :
    (f.setCurOffset v).curOffset = v ∧ (f.setCurOffset v).curBuffer = f.curBuffer ∧
    (f.setCurOffset v).current = f.current ∧
    (f.setCurOffset v).bufferSize = f.bufferSize ∧
    (f.setCurOffset v).offset0 = (if f.current = 0 then v else f.offset0) ∧
    (f.setCurOffset v).offset1 = (if f.current = 0 then f.offset1 else v) := by
  unfold FrameAllocator.setCurOffset FrameAllocator.curOffset FrameAllocator.curBuffer
  by_cases h : f.current = 0 <;> simp [h]

/-- Single fitting in-frame allocation: succeeds without 32-bit truncation,
returns the aligned address at or after `base + offset`, and advances the
active offset to exactly `offset + padding + size ≤ bufferSize`. -/
theorem FrameAllocator.Allocate_fit_step (f : FrameAllocator) (size k : Nat)
    (hk : k < 64) (hB : f.bufferSize < U32)
    (hov : f.curBuffer + f.curOffset + (2 ^ k - 1) < UPTR)
    (hfit : f.curOffset
        + sub64 (alignUp ((f.curBuffer + f.curOffset) % UPTR) (2 ^ k))
            ((f.curBuffer + f.curOffset) % UPTR) + size ≤ f.bufferSize) :
    f.Allocate size (2 ^ k)
      = (some (alignUp (f.curBuffer + f.curOffset) (2 ^ k)),
         f.setCurOffset (f.curOffset
           + (alignUp (f.curBuffer + f.curOffset) (2 ^ k) - (f.curBuffer + f.curOffset))
           + size)) ∧
    f.curBuffer + f.curOffset ≤ alignUp (f.curBuffer + f.curOffset) (2 ^ k) ∧
    alignUp (f.curBuffer + f.curOffset) (2 ^ k) + size
      = f.curBuffer + (f.curOffset
          + (alignUp (f.curBuffer + f.curOffset) (2 ^ k) - (f.curBuffer + f.curOffset))
          + size) ∧
    2 ^ k ∣ alignUp (f.curBuffer + f.curOffset) (2 ^ k) ∧
    f.curOffset + (alignUp (f.curBuffer + f.curOffset) (2 ^ k) - (f.curBuffer + f.curOffset))
        + size ≤ f.bufferSize := by
  have h1 : (1 : Nat) ≤ 2 ^ k := Nat.one_le_two_pow
  have hx : f.curBuffer + f.curOffset < UPTR := by omega
  have hmodx : (f.curBuffer + f.curOffset) % UPTR = f.curBuffer + f.curOffset :=
    Nat.mod_eq_of_lt hx
  obtain ⟨hge, hle, hdvd⟩ := alignUp_spec hk hov
  have hpU : alignUp (f.curBuffer + f.curOffset) (2 ^ k) < UPTR := by omega
  have hpad : sub64 (alignUp (f.curBuffer + f.curOffset) (2 ^ k)) (f.curBuffer + f.curOffset)
      = alignUp (f.curBuffer + f.curOffset) (2 ^ k) - (f.curBuffer + f.curOffset) :=
    sub64_eq_sub hge hpU
  rw [hmodx, hpad] at hfit
  have hU32U : U32 < UPTR := by unfold U32 UPTR; norm_num
  have hpadB : alignUp (f.curBuffer + f.curOffset) (2 ^ k) - (f.curBuffer + f.curOffset)
      + size < U32 := by omega
  have hoffB : f.curOffset
      + (alignUp (f.curBuffer + f.curOffset) (2 ^ k) - (f.curBuffer + f.curOffset))
      + size < U32 := by omega
  unfold FrameAllocator.Allocate
  simp only []
  rw [hmodx, hpad, Nat.mod_eq_of_lt (by omega :
    f.curOffset + (alignUp (f.curBuffer + f.curOffset) (2 ^ k)
      - (f.curBuffer + f.curOffset)) + size < UPTR)]
  rw [if_neg (by omega)]
  rw [Nat.mod_eq_of_lt hpadB,
    Nat.mod_eq_of_lt (by omega : f.curOffset
      + (alignUp (f.curBuffer + f.curOffset) (2 ^ k) - (f.curBuffer + f.curOffset) + size)
      < U32), ← Nat.add_assoc]
  exact ⟨rfl, hge, by omega, hdvd, hfit⟩

/-- Master specification of a fitting in-frame run: every call succeeds,
addresses are aligned and pairwise ordered with disjoint ranges, and the
buffer base, buffer size and active index are untouched. -/
theorem frameRun_fits (calls : List (Nat × Nat)) :
    ∀ f : FrameAllocator, f.bufferSize < U32 → fitsFrameRun f calls = true →
    ∃ addrs : List Nat,
      (frameRun f calls).1 = addrs.map some ∧
      addrs.length = calls.length ∧
      (∀ q ∈ addrs, f.curBuffer + f.curOffset ≤ q) ∧
      (∀ pr ∈ addrs.zip calls, pr.2.2 ∣ pr.1) ∧
      List.Pairwise (fun x y => x.1 + x.2 ≤ y.1) (addrs.zip (calls.map Prod.fst)) ∧
      (frameRun f calls).2.curBuffer = f.curBuffer ∧
      (frameRun f calls).2.bufferSize = f.bufferSize := by
  induction calls with
  | nil =>
      intro f _ _
      exact ⟨[], rfl, rfl, by simp, by simp, by simp, rfl, rfl⟩
  | cons c rest ih =>
      obtain ⟨size, al⟩ := c
      intro f hB hfits
      rw [fitsFrameRun, Bool.and_eq_true, Bool.and_eq_true, Bool.and_eq_true,
        decide_eq_true_eq, decide_eq_true_eq] at hfits
      obtain ⟨⟨⟨hp2, hov⟩, hfit⟩, hrest⟩ := hfits
      obtain ⟨k, hk, rfl⟩ := pow2b_spec hp2
      obtain ⟨heq, hge, hend, hdvd, hoffB⟩ := f.Allocate_fit_step size k hk hB hov hfit
      set p := alignUp (f.curBuffer + f.curOffset) (2 ^ k) with hp
      set v := f.curOffset + (p - (f.curBuffer + f.curOffset)) + size with hv
      obtain ⟨s1, s2, s3, s4, s5, s6⟩ := f.setCurOffset_fields v
      have hrest' : fitsFrameRun (f.setCurOffset v) rest = true := by
        rw [heq] at hrest
        exact hrest
      have hB' : (f.setCurOffset v).bufferSize < U32 := by rw [s4]; exact hB
      obtain ⟨addrs, ih1, ih2, ih3, ih4, ih5, ih6, ih7⟩ := ih (f.setCurOffset v) hB' hrest'
      refine ⟨p :: addrs, ?_, ?_, ?_, ?_, ?_, ?_, ?_⟩
      · simp only [frameRun, heq, List.map_cons]
        rw [ih1]
      · simp [ih2]
      · intro q hq
        rcases List.mem_cons.mp hq with h | h
        · omega
        · have h3 := ih3 q h
          rw [s2, s1] at h3
          omega
      · intro pr hpr
        rcases List.mem_cons.mp (by simpa using hpr) with h | h
        · rw [h]
          exact hdvd
        · exact ih4 pr h
      · simp only [List.map_cons, List.zip_cons_cons]
        refine List.Pairwise.cons ?_ ih5
        intro y hy
        obtain ⟨y1, y2⟩ := y
        have hy1 : y1 ∈ addrs := (List.of_mem_zip hy).1
        have h3 := ih3 y1 hy1
        rw [s2, s1] at h3
        omega
      · simp only [frameRun, heq]
        rw [ih6, s2]
      · simp only [frameRun, heq]
        rw [ih7, s4]

/-- C10: `FrameAllocator` stores each buffer's offset as a 32-bit counter
while sizes and the capacity check use full-width `size_t` arithmetic: a
successful `Allocate` advances the active offset by `(padding + size)`
truncated modulo `2^32`; for buffer sizes below `2^32` every operation
preserves `offset ≤ bufferSize` and fitting allocations within one cycle
never overlap; but with a buffer size of `2^32` two successful `Allocate`
calls in the same cycle return overlapping ranges (both return address 16,
the first covering `2^32` bytes). -/
theorem frame_offset32_truncation :
    (∀ (f : FrameAllocator) (size al : Nat),
        ((f.Allocate size al).1).isSome = true →
        (f.Allocate size al).2.curOffset
          = (f.curOffset + (sub64 (alignUp ((f.curBuffer + f.curOffset) % UPTR) al)
              ((f.curBuffer + f.curOffset) % UPTR) + size) % U32) % U32) ∧
    (∀ (f : FrameAllocator) (size al : Nat),
        f.bufferSize < U32 → f.offset0 ≤ f.bufferSize → f.offset1 ≤ f.bufferSize →
        (f.Allocate size al).2.offset0 ≤ f.bufferSize ∧
        (f.Allocate size al).2.offset1 ≤ f.bufferSize) ∧
    (∀ f : FrameAllocator, f.bufferSize < U32 → f.offset0 ≤ f.bufferSize →
        f.offset1 ≤ f.bufferSize →
        f.BeginFrame.offset0 ≤ f.bufferSize ∧ f.BeginFrame.offset1 ≤ f.bufferSize) ∧
    (∀ (f : FrameAllocator) (calls : List (Nat × Nat)),
        f.bufferSize < U32 → fitsFrameRun f calls = true →
        ∃ addrs : List Nat,
          (frameRun f calls).1 = addrs.map some ∧
          List.Pairwise (fun x y => x.1 + x.2 ≤ y.1 ∨ y.1 + y.2 ≤ x.1)
            (addrs.zip (calls.map Prod.fst))) ∧
    ((frameBig.Allocate (2 ^ 32) 16).1 = some 16 ∧
     ((frameBig.Allocate (2 ^ 32) 16).2.Allocate 16 16).1 = some 16 ∧
     (16 : Nat) < 16 + 16 ∧ (16 : Nat) < 16 + 2 ^ 32) := by
  refine ⟨?_, ?_, ?_, ?_, by decide⟩
  · intro f size al hsome
    by_cases h : (f.curOffset + sub64 (alignUp ((f.curBuffer + f.curOffset) % UPTR) al)
        ((f.curBuffer + f.curOffset) % UPTR) + size) % UPTR > f.bufferSize
    · rw [f.Allocate_fail size al h] at hsome
      simp at hsome
    · have heq : f.Allocate size al
          = (some (alignUp ((f.curBuffer + f.curOffset) % UPTR) al),
             f.setCurOffset ((f.curOffset
               + (sub64 (alignUp ((f.curBuffer + f.curOffset) % UPTR) al)
                   ((f.curBuffer + f.curOffset) % UPTR) + size) % U32) % U32)) := by
        unfold FrameAllocator.Allocate
        simp only []
        rw [if_neg h]
      rw [heq]
      exact (FrameAllocator.setCurOffset_fields f _).1
  · intro f size al hB h0 h1
    by_cases h : (f.curOffset + sub64 (alignUp ((f.curBuffer + f.curOffset) % UPTR) al)
        ((f.curBuffer + f.curOffset) % UPTR) + size) % UPTR > f.bufferSize
    · rw [f.Allocate_fail size al h]
      exact ⟨h0, h1⟩
    · have heq : f.Allocate size al
          = (some (alignUp ((f.curBuffer + f.curOffset) % UPTR) al),
             f.setCurOffset ((f.curOffset
               + (sub64 (alignUp ((f.curBuffer + f.curOffset) % UPTR) al)
                   ((f.curBuffer + f.curOffset) % UPTR) + size) % U32) % U32)) := by
        unfold FrameAllocator.Allocate
        simp only []
        rw [if_neg h]
      rw [heq]
      obtain ⟨s1, s2, s3, s4, s5, s6⟩ := f.setCurOffset_fields
        ((f.curOffset + (sub64 (alignUp ((f.curBuffer + f.curOffset) % UPTR) al)
            ((f.curBuffer + f.curOffset) % UPTR) + size) % U32) % U32)
      have hdvd : U32 ∣ UPTR := by
        unfold U32 UPTR
        exact pow_dvd_pow 2 (by omega)
      have hval : (f.curOffset + (sub64 (alignUp ((f.curBuffer + f.curOffset) % UPTR) al)
            ((f.curBuffer + f.curOffset) % UPTR) + size) % U32) % U32 ≤ f.bufferSize := by
        rw [Nat.add_mod_mod, ← Nat.mod_mod_of_dvd _ hdvd]
        calc (f.curOffset + (sub64 (alignUp ((f.curBuffer + f.curOffset) % UPTR) al)
              ((f.curBuffer + f.curOffset) % UPTR) + size)) % UPTR % U32
            ≤ (f.curOffset + (sub64 (alignUp ((f.curBuffer + f.curOffset) % UPTR) al)
              ((f.curBuffer + f.curOffset) % UPTR) + size)) % UPTR := Nat.mod_le _ _
          _ ≤ f.bufferSize := by rw [← Nat.add_assoc]; omega
      rw [s5, s6]
      constructor
      · by_cases hc : f.current = 0
        · rw [if_pos hc]
          exact hval
        · rw [if_neg hc]
          exact h0
      · by_cases hc : f.current = 0
        · rw [if_pos hc]
          exact h1
        · rw [if_neg hc]
          exact hval
  · intro f hB h0 h1
    unfold FrameAllocator.BeginFrame FrameAllocator.setCurOffset
    by_cases hc : (1 - f.current) = 0 <;> simp [hc] <;> omega
  · intro f calls hB hfits
    obtain ⟨addrs, h1, h2, h3, h4, h5, h6, h7⟩ := frameRun_fits calls f hB hfits
    exact ⟨addrs, h1, h5.imp fun h => Or.inl h⟩

/-- C4: `DebugAllocator::Free(ptr, isArray)` is a no-op on null; on a
recorded pointer whose stored shape differs it emits a mismatch diagnostic
naming the original allocation site and both shapes but still removes the
entry, decrements the running total and releases the memory; on a recorded
pointer with matching shape it decrements the total and removes the entry
(no diagnostic); on an unrecorded pointer it emits an unknown-pointer
diagnostic; and in every non-null case the underlying memory is released
exactly once (the free list returned is exactly `[ptr]`).  The final
conjuncts evaluate the mismatch and unknown cases on a concrete state. -/
theorem debug_free_cases :
    (∀ (s : DebugAllocator) (arr : Bool), s.Free 0 arr = (s, [], [])) ∧
    (∀ (s : DebugAllocator) (p : Nat) (arr : Bool) (info : AllocationInfo),
        p ≠ 0 → lookupAlloc s.allocs p = some info → info.isArray ≠ arr →
        s.Free p arr
          = ({ allocs := eraseKey p s.allocs,
               total := sub64 s.total info.size,
               peak := s.peak },
             [DebugDiagnostic.mismatch info.file info.line info.isArray arr], [p])) ∧
    (∀ (s : DebugAllocator) (p : Nat) (arr : Bool) (info : AllocationInfo),
        p ≠ 0 → lookupAlloc s.allocs p = some info → info.isArray = arr →
        s.Free p arr
          = ({ allocs := eraseKey p s.allocs,
               total := sub64 s.total info.size,
               peak := s.peak }, [], [p])) ∧
    (∀ (s : DebugAllocator) (p : Nat) (arr : Bool),
        p ≠ 0 → lookupAlloc s.allocs p = none →
        s.Free p arr = (s, [DebugDiagnostic.unknownPointer p], [p])) ∧
    (∀ (s : DebugAllocator) (p : Nat) (arr : Bool),
        p ≠ 0 → (s.Free p arr).2.2 = [p]) ∧
    (dbgS.Free 100 true = ({ allocs := [], total := 0, peak := 10 },
        [DebugDiagnostic.mismatch "a.cpp" 3 false true], [100]) ∧
     dbgS.Free 200 false = (dbgS, [DebugDiagnostic.unknownPointer 200], [200]) ∧
     dbgS.Free 0 true = (dbgS, [], []) ∧
     dbgS.Free 100 false = ({ allocs := [], total := 0, peak := 10 }, [], [100])) := by
  have hnull : ∀ (s : DebugAllocator) (arr : Bool), s.Free 0 arr = (s, [], []) := by
    intro s arr
    unfold DebugAllocator.Free
    rw [if_pos rfl]
  have hfound : ∀ (s : DebugAllocator) (p : Nat) (arr : Bool) (info : AllocationInfo),
      p ≠ 0 → lookupAlloc s.allocs p = some info →
      s.Free p arr
        = ({ allocs := eraseKey p s.allocs,
             total := sub64 s.total info.size,
             peak := s.peak },
           if info.isArray ≠ arr then
             [DebugDiagnostic.mismatch info.file info.line info.isArray arr] else [],
           [p]) := by
    intro s p arr info hp hl
    unfold DebugAllocator.Free
    rw [if_neg hp, hl]
  have hmiss : ∀ (s : DebugAllocator) (p : Nat) (arr : Bool),
      p ≠ 0 → lookupAlloc s.allocs p = none →
      s.Free p arr = (s, [DebugDiagnostic.unknownPointer p], [p]) := by
    intro s p arr hp hl
    unfold DebugAllocator.Free
    rw [if_neg hp, hl]
  refine ⟨hnull, ?_, ?_, hmiss, ?_, ?_⟩
  · intro s p arr info hp hl hne
    rw [hfound s p arr info hp hl, if_pos hne]
  · intro s p arr info hp hl heq
    rw [hfound s p arr info hp hl, if_neg (by simp [heq])]
  · intro s p arr hp
    cases hl : lookupAlloc s.allocs p with
    | some info => rw [hfound s p arr info hp hl]
    | none => rw [hmiss s p arr hp hl]
  · refine ⟨?_, ?_, ?_, ?_⟩ <;> decide

/-- A key is absent exactly when lookup fails. -/
theorem lookupAlloc_eq_none {l : List (Nat × AllocationInfo)} {p : Nat} :
    lookupAlloc l p = none ↔ p ∉ keysOf l := by
  induction l with
  | nil => simp [lookupAlloc, keysOf]
  | cons qi rest ih =>
      obtain ⟨q, i⟩ := qi
      by_cases h : q = p
      · subst h
        simp [lookupAlloc, keysOf]
      · simp [lookupAlloc, keysOf, h, ih]
        omega

/-- `operator[]` on an absent key appends the new entry. -/
theorem mapInsert_absent {l : List (Nat × AllocationInfo)} {p : Nat}
    (h : lookupAlloc l p = none) (v : AllocationInfo) :
    mapInsert p v l = l ++ [(p, v)] := by
  induction l with
  | nil => rfl
  | cons qi rest ih =>
      obtain ⟨q, i⟩ := qi
      rw [lookupAlloc] at h
      by_cases hq : q = p
      · rw [if_pos hq] at h
        exact absurd h (by simp)
      · rw [if_neg hq] at h
        rw [mapInsert, if_neg hq, ih h]
        rfl

/-- Lookup after `operator[]` assignment. -/
theorem lookup_mapInsert (l : List (Nat × AllocationInfo)) (p : Nat)
    (v : AllocationInfo) (q : Nat) :
    lookupAlloc (mapInsert p v l) q = if p = q then some v else lookupAlloc l q := by
  induction l with
  | nil => rfl
  | cons ai rest ih =>
      obtain ⟨a, i⟩ := ai
      by_cases ha : a = p
      · subst ha
        rw [mapInsert, if_pos rfl, lookupAlloc, lookupAlloc]
        by_cases haq : a = q <;> simp [haq]
      · rw [mapInsert, if_neg ha, lookupAlloc, lookupAlloc, ih]
        by_cases haq : a = q
        · rw [if_pos haq, if_neg (by omega), if_pos haq]
        · rw [if_neg haq, if_neg haq]

/-- Lookup after `erase` (unique keys). -/
theorem lookup_eraseKey {l : List (Nat × AllocationInfo)} (hnd : (keysOf l).Nodup)
    (p q : Nat) :
    lookupAlloc (eraseKey p l) q = if p = q then none else lookupAlloc l q := by
  induction l with
  | nil =>
      rw [eraseKey, lookupAlloc]
      by_cases h : p = q
      · rw [if_pos h]
      · rw [if_neg h]
  | cons ai rest ih =>
      obtain ⟨a, i⟩ := ai
      rw [keysOf, List.map_cons, List.nodup_cons] at hnd
      obtain ⟨hna, hnd'⟩ := hnd
      by_cases ha : a = p
      · subst ha
        rw [eraseKey, if_pos rfl]
        by_cases haq : a = q
        · rw [if_pos haq]
          subst haq
          exact lookupAlloc_eq_none.mpr hna
        · rw [if_neg haq, lookupAlloc, if_neg haq]
      · rw [eraseKey, if_neg ha, lookupAlloc, lookupAlloc]
        by_cases haq : a = q
        · rw [if_pos haq, if_neg (by omega), if_pos haq]
        · rw [if_neg haq, if_neg haq, ih (by exact hnd')]

/-- Erasing an absent key does nothing. -/
theorem eraseKey_absent {l : List (Nat × AllocationInfo)} {p : Nat}
    (h : lookupAlloc l p = none) : eraseKey p l = l := by
  induction l with
  | nil => rfl
  | cons qi rest ih =>
      obtain ⟨q, i⟩ := qi
      rw [lookupAlloc] at h
      by_cases hq : q = p
      · rw [if_pos hq] at h
        exact absurd h (by simp)
      · rw [if_neg hq] at h
        rw [eraseKey, if_neg hq, ih h]

/-- Erasing preserves the key list up to a sublist. -/
theorem keysOf_eraseKey_sublist (p : Nat) (l : List (Nat × AllocationInfo)) :
    (keysOf (eraseKey p l)).Sublist (keysOf l) := by
  induction l with
  | nil => simp [eraseKey, keysOf]
  | cons qi rest ih =>
      obtain ⟨q, i⟩ := qi
      rw [eraseKey]
      by_cases hq : q = p
      · rw [if_pos hq]
        exact (List.sublist_cons_self _ _)
      · rw [if_neg hq]
        exact List.Sublist.cons₂ _ ih

/-- Bytes of the live map after an insertion of a fresh key. -/
theorem liveBytes_mapInsert_absent {l : List (Nat × AllocationInfo)} {p : Nat}
    (h : lookupAlloc l p = none) (v : AllocationInfo) :
    liveBytes (mapInsert p v l) = liveBytes l + v.size := by
  rw [mapInsert_absent h v]
  unfold liveBytes
  rw [List.map_append, List.sum_append]
  rfl

/-- Bytes of the live map after erasing a present key (the first matching
entry is both the one lookup finds and the one erase removes). -/
theorem liveBytes_eraseKey {l : List (Nat × AllocationInfo)} {p : Nat}
    {info : AllocationInfo} (h : lookupAlloc l p = some info) :
    liveBytes (eraseKey p l) + info.size = liveBytes l := by
  induction l with
  | nil => exact absurd h (by simp [lookupAlloc])
  | cons qi rest ih =>
      obtain ⟨q, i⟩ := qi
      rw [lookupAlloc] at h
      have hcons : liveBytes ((q, i) :: rest) = i.size + liveBytes rest := by
        unfold liveBytes
        rw [List.map_cons, List.sum_cons]
      by_cases hq : q = p
      · rw [if_pos hq] at h
        have hi : i = info := by simpa using h
        subst hi
        rw [eraseKey, if_pos hq, hcons]
        omega
      · rw [if_neg hq] at h
        rw [eraseKey, if_neg hq, hcons]
        have hcons2 : liveBytes ((q, i) :: eraseKey p rest)
            = i.size + liveBytes (eraseKey p rest) := by
          unfold liveBytes
          rw [List.map_cons, List.sum_cons]
        rw [hcons2]
        have hrest := ih h
        omega

/-- A map in which every lookup fails is empty. -/
theorem allocs_empty_of_lookup_none {l : List (Nat × AllocationInfo)}
    (h : ∀ p, lookupAlloc l p = none) : l = [] := by
  cases l with
  | nil => rfl
  | cons qi rest =>
      obtain ⟨q, i⟩ := qi
      have := h q
      rw [lookupAlloc, if_pos rfl] at this
      exact absurd this (by simp)

/-- Master invariant of the tracker: under fresh (non-colliding, non-null)
malloc results and no `size_t` overflow of the running total, the
implementation's map agrees pointwise with the specification-level live set,
and the running total never exceeds the recorded peak. -/
theorem runDebug_master (tr : List DebugEvent) :
    ∀ (s : DebugAllocator) (acc : List (Nat × AllocationInfo)),
      freshRun s tr = true →
      (keysOf s.allocs).Nodup →
      (keysOf acc).Nodup →
      (∀ p, lookupAlloc s.allocs p = lookupAlloc acc p) →
      lookupAlloc s.allocs 0 = none →
      s.total = liveBytes s.allocs →
      s.total ≤ s.peak →
      liveBytes s.allocs + traceAllocBytes tr < UPTR →
      (∀ p, lookupAlloc (runDebug s tr).allocs p
          = lookupAlloc (liveSpecFrom acc tr) p) ∧
      (runDebug s tr).total ≤ (runDebug s tr).peak := by
  induction tr with
  | nil =>
      intro s acc _ _ _ hpt _ _ hle _
      exact ⟨hpt, hle⟩
  | cons e rest ih =>
      intro s acc hfresh hnds hnda hpt h0 htot hle hbound
      cases e with
      | alloc size file line isArray p =>
          rw [freshRun, Bool.and_eq_true] at hfresh
          obtain ⟨hp, hfr⟩ := hfresh
          rw [traceAllocBytes] at hbound
          rw [runDebug, liveSpecFrom]
          by_cases hp0 : p = 0
          · subst hp0
            have hseq : (s.Allocate size file line isArray 0).2 = s := by
              unfold DebugAllocator.Allocate
              rw [if_neg (by simp)]
            rw [hseq, if_neg (fun h => h rfl)]
            exact ih s acc (by rwa [hseq] at hfr) hnds hnda hpt h0 htot hle (by omega)
          · have hlp : lookupAlloc s.allocs p = none := by
              have h' : p = 0 ∨ lookupAlloc s.allocs p = none := by simpa using hp
              rcases h' with h | h
              · exact absurd h hp0
              · exact h
            have hseq : (s.Allocate size file line isArray p).2
                = { allocs := mapInsert p ⟨size, file, line, isArray⟩ s.allocs,
                    total := (s.total + size) % UPTR,
                    peak := if s.peak < (s.total + size) % UPTR
                      then (s.total + size) % UPTR else s.peak } := by
              unfold DebugAllocator.Allocate
              rw [if_pos hp0]
            have hm : (s.total + size) % UPTR = s.total + size :=
              Nat.mod_eq_of_lt (by omega)
            have hlive : liveBytes (mapInsert p ⟨size, file, line, isArray⟩ s.allocs)
                = liveBytes s.allocs + size := liveBytes_mapInsert_absent hlp _
            have hkeys : keysOf (mapInsert p ⟨size, file, line, isArray⟩ s.allocs)
                = keysOf s.allocs ++ [p] := by
              rw [mapInsert_absent hlp]
              unfold keysOf
              rw [List.map_append]
              rfl
            have hnds1 : (keysOf (mapInsert p ⟨size, file, line, isArray⟩ s.allocs)).Nodup := by
              rw [hkeys, List.nodup_append]
              refine ⟨hnds, List.nodup_singleton p, ?_⟩
              intro a ha hb
              simp only [List.mem_singleton] at hb
              subst hb
              exact (lookupAlloc_eq_none.mp hlp) ha
            have hpacc : lookupAlloc acc p = none := by rw [← hpt p]; exact hlp
            have hnda1 : (keysOf ((p, (⟨size, file, line, isArray⟩ : AllocationInfo)) :: acc)).Nodup := by
              unfold keysOf
              rw [List.map_cons, List.nodup_cons]
              exact ⟨lookupAlloc_eq_none.mp hpacc, hnda⟩
            have hpt1 : ∀ q, lookupAlloc (mapInsert p ⟨size, file, line, isArray⟩ s.allocs) q
                = lookupAlloc ((p, (⟨size, file, line, isArray⟩ : AllocationInfo)) :: acc) q := by
              intro q
              rw [lookup_mapInsert, lookupAlloc]
              by_cases hpq : p = q
              · rw [if_pos hpq, if_pos hpq]
              · rw [if_neg hpq, if_neg hpq]
                exact hpt q
            have h01 : lookupAlloc (mapInsert p ⟨size, file, line, isArray⟩ s.allocs) 0 = none := by
              rw [lookup_mapInsert, if_neg hp0]
              exact h0
            rw [hseq, if_pos hp0]
            refine ih _ _ (by rwa [hseq] at hfr) hnds1 hnda1 hpt1 h01 ?_ ?_ ?_
            · show (s.total + size) % UPTR = liveBytes (mapInsert p ⟨size, file, line, isArray⟩ s.allocs)
              rw [hm, hlive, htot]
            · show (s.total + size) % UPTR
                ≤ (if s.peak < (s.total + size) % UPTR then (s.total + size) % UPTR else s.peak)
              by_cases hpk : s.peak < (s.total + size) % UPTR
              · rw [if_pos hpk]
              · rw [if_neg hpk]
                omega
            · show liveBytes (mapInsert p ⟨size, file, line, isArray⟩ s.allocs)
                + traceAllocBytes rest < UPTR
              rw [hlive]
              omega
      | free q arr =>
          rw [freshRun] at hfresh
          rw [traceAllocBytes] at hbound
          rw [runDebug, liveSpecFrom]
          by_cases hq0 : q = 0
          · subst hq0
            have hseq : (s.Free 0 arr).1 = s := by
              unfold DebugAllocator.Free
              rw [if_pos rfl]
            have hacc : eraseKey 0 acc = acc := eraseKey_absent (by rw [← hpt 0]; exact h0)
            rw [hseq, hacc]
            exact ih s acc (by rwa [hseq] at hfresh) hnds hnda hpt h0 htot hle hbound
          · cases hlq : lookupAlloc s.allocs q with
            | none =>
                have hseq : (s.Free q arr).1 = s := by
                  unfold DebugAllocator.Free
                  rw [if_neg hq0, hlq]
                have hacc : eraseKey q acc = acc :=
                  eraseKey_absent (by rw [← hpt q]; exact hlq)
                rw [hseq, hacc]
                exact ih s acc (by rwa [hseq] at hfresh) hnds hnda hpt h0 htot hle hbound
            | some info =>
                have hseq : (s.Free q arr).1
                    = { allocs := eraseKey q s.allocs,
                        total := sub64 s.total info.size, peak := s.peak } := by
                  unfold DebugAllocator.Free
                  rw [if_neg hq0, hlq]
                have herase := liveBytes_eraseKey hlq
                have htotU : s.total < UPTR := by omega
                have hsub : sub64 s.total info.size = s.total - info.size :=
                  sub64_eq_sub (by omega) htotU
                have hnds1 : (keysOf (eraseKey q s.allocs)).Nodup :=
                  (keysOf_eraseKey_sublist q s.allocs).nodup hnds
                have hnda1 : (keysOf (eraseKey q acc)).Nodup :=
                  (keysOf_eraseKey_sublist q acc).nodup hnda
                have hpt1 : ∀ r, lookupAlloc (eraseKey q s.allocs) r
                    = lookupAlloc (eraseKey q acc) r := by
                  intro r
                  rw [lookup_eraseKey hnds q r, lookup_eraseKey hnda q r]
                  by_cases hqr : q = r
                  · rw [if_pos hqr, if_pos hqr]
                  · rw [if_neg hqr, if_neg hqr]
                    exact hpt r
                have h01 : lookupAlloc (eraseKey q s.allocs) 0 = none := by
                  rw [lookup_eraseKey hnds q 0, if_neg hq0]
                  exact h0
                rw [hseq]
                refine ih _ _ (by rwa [hseq] at hfresh) hnds1 hnda1 hpt1 h01 ?_ ?_ ?_
                · show sub64 s.total info.size = liveBytes (eraseKey q s.allocs)
                  rw [hsub, htot]
                  omega
                · show sub64 s.total info.size ≤ s.peak
                  rw [hsub]
                  omega
                · show liveBytes (eraseKey q s.allocs) + traceAllocBytes rest < UPTR
                  omega

/-- Freshness restricts to every prefix of the trace. -/
theorem freshRun_take (tr : List DebugEvent) :
    ∀ (s : DebugAllocator) (n : Nat),
      freshRun s tr = true → freshRun s (tr.take n) = true := by
  induction tr with
  | nil =>
      intro s n h
      rw [List.take_nil]
      exact h
  | cons e rest ih =>
      intro s n h
      cases n with
      | zero => rfl
      | succ m =>
          rw [List.take_succ_cons]
          cases e with
          | alloc size file line isArray p =>
              rw [freshRun, Bool.and_eq_true] at h
              rw [freshRun, Bool.and_eq_true]
              exact ⟨h.1, ih _ m h.2⟩
          | free p arr =>
              rw [freshRun] at h
              rw [freshRun]
              exact ih _ m h

/-- A prefix of the trace requests at most as many bytes. -/
theorem traceAllocBytes_take_le (tr : List DebugEvent) :
    ∀ n, traceAllocBytes (tr.take n) ≤ traceAllocBytes tr := by
  induction tr with
  | nil =>
      intro n
      rw [List.take_nil]
  | cons e rest ih =>
      intro n
      cases n with
      | zero =>
          rw [List.take_zero]
          exact Nat.zero_le _
      | succ m =>
          rw [List.take_succ_cons]
          cases e with
          | alloc size file line isArray p =>
              rw [traceAllocBytes, traceAllocBytes]
              have := ih m
              omega
          | free p arr =>
              rw [traceAllocBytes, traceAllocBytes]
              exact ih m

/-- C5: for every trace of `Allocate` / `Free` calls with fresh malloc
results and no `size_t` overflow of the total, the live-allocation map
contains exactly the non-null addresses returned by `Allocate` and not yet
passed to `Free`, with the metadata recorded at allocation time (pointwise
agreement with the specification-level live set); `ReportLeaks` enumerates
exactly that set; the map is empty once every allocation is matched by a
free; and `peak ≥ total` holds after every prefix of the trace. -/
theorem debug_live_mapping (tr : List DebugEvent)
    (hfresh : freshRun initDebug tr = true)
    (hsum : traceAllocBytes tr < UPTR) :
    (∀ p, lookupAlloc (runDebug initDebug tr).allocs p
        = lookupAlloc (liveSpecFrom [] tr) p) ∧
    (∀ p, lookupAlloc (runDebug initDebug tr).ReportLeaks.1 p
        = lookupAlloc (liveSpecFrom [] tr) p) ∧
    (liveSpecFrom [] tr = [] → (runDebug initDebug tr).allocs = []) ∧
    (∀ n, (runDebug initDebug (tr.take n)).total
        ≤ (runDebug initDebug (tr.take n)).peak) := by
  have hmain := runDebug_master tr initDebug [] hfresh
    (by simp [initDebug, keysOf]) (by simp [keysOf]) (fun p => rfl) rfl rfl
    (Nat.le_refl 0) (by simpa [liveBytes, initDebug] using hsum)
  refine ⟨hmain.1, hmain.1, ?_, ?_⟩
  · intro hempty
    apply allocs_empty_of_lookup_none
    intro p
    rw [hmain.1 p, hempty]
    rfl
  · intro n
    exact (runDebug_master (tr.take n) initDebug []
      (freshRun_take tr initDebug n hfresh)
      (by simp [initDebug, keysOf]) (by simp [keysOf]) (fun p => rfl) rfl rfl
      (Nat.le_refl 0)
      (by
        have h1 := traceAllocBytes_take_le tr n
        have h0 : liveBytes initDebug.allocs = 0 := rfl
        omega)).2

/-- Witness for C5 on a concrete three-event trace (two allocations, the
first one freed): the surviving address 200 carries its recorded metadata
in both the implementation map and the specification-level live set, and
`peak ≥ total` holds after the full trace. -/
theorem debug_live_mapping_witness :
    freshRun initDebug dbgTr = true ∧ traceAllocBytes dbgTr < UPTR ∧
    lookupAlloc (runDebug initDebug dbgTr).allocs 200
      = lookupAlloc (liveSpecFrom [] dbgTr) 200 ∧
    (runDebug initDebug (dbgTr.take 3)).total
      ≤ (runDebug initDebug (dbgTr.take 3)).peak :=
  ⟨by decide, by decide,
   (debug_live_mapping dbgTr (by decide) (by decide)).1 200,
   (debug_live_mapping dbgTr (by decide) (by decide)).2.2.2 3⟩
